import Mathlib

/-!
A verification development for the makeoffer repository.

The repository schedules temporary or permanent price changes ("offers")
on e-commerce product variants.  The embedding below translates, from the
TypeScript sources:

* the offer data model (Offer / OfferItem, `prisma` schema);
* the price synchronizer `applyOfferPrices` / `revertOfferPrices`
  (`app/services/price-updater.server.ts`, the newer variant that
  distinguishes OFFER from REGULAR price types);
* the CSV parser `parseCSV` (`app/utils/csv-parser.server.ts`, the newer
  variant that enforces the format-specific price column);
* the per-item price computation and the loader/action of the edit route
  (`app/routes/app.offers.$id.edit.tsx`).

Remote GraphQL state (variants, products) is modelled as an explicit shop
state; every remote call issued by the synchronizer is recorded in an
event trace so that "no remote calls" and "a mutation with price p was
issued" are expressible.  Decimal values are modelled as rationals.
-/

namespace MakeOffer

/-! ## String helpers

All string manipulation is done on `List Char` with structural recursion,
so that every definition reduces inside the kernel. -/

/-- Split a character list on a separator character (`String.split` on one
separator, as used by `offer.tags.split(",")` and the CSV cell split). -/
def splitOnChar (sep : Char) : List Char → List (List Char)
  | [] => [[]]
  | c :: cs =>
    match splitOnChar sep cs with
    | [] => if c = sep then [[], []] else [[c]]
    | h :: t => if c = sep then [] :: h :: t else (c :: h) :: t

/-- Whitespace recognized by `trim`. -/
def isWS (c : Char) : Bool := c = ' ' ∨ c = '\t' ∨ c = '\r' ∨ c = '\n'

/-- `String.trim` on a character list. -/
def trimChars (l : List Char) : List Char :=
  ((l.dropWhile isWS).reverse.dropWhile isWS).reverse

/-- JavaScript `s.trim()`. -/
def jsTrim (s : String) : String := String.mk (trimChars s.data)

/-- JavaScript `s.toLowerCase()` (ASCII letters suffice for the CSV headers). -/
def jsLower (s : String) : String := String.mk (s.data.map Char.toLower)

/-- JavaScript `s.split(sep)` for a one-character separator. -/
def jsSplit (sep : Char) (s : String) : List String :=
  (splitOnChar sep s.data).map String.mk

/-- `offer.tags.split(",").map(t => t.trim()).filter(Boolean)` — the tag list
of an offer, as parsed by both `applyOfferPrices` and `revertOfferPrices`. -/
def parseTags (s : String) : List String :=
  ((jsSplit ',' s).map jsTrim).filter (fun t => t ≠ "")

/-- Keep-first deduplication with an accumulator of already-seen elements;
`dedupKeepFirst (cur ++ add)` is JavaScript `[...new Set([...cur, ...add])]`. -/
def dedupAux (seen : List String) : List String → List String
  | [] => []
  | x :: xs => if x ∈ seen then dedupAux seen xs else x :: dedupAux (x :: seen) xs

/-- `[...new Set([...currentTags, ...offerTags])]` — the tag merge issued by
`applyOfferPrices` when the offer has tags. -/
def mergeTags (cur add : List String) : List String := dedupAux [] (cur ++ add)

/-- `currentTags.filter(t => !offerTags.includes(t))` — the tag removal issued
by `revertOfferPrices` when the offer has tags. -/
def removeTags (cur offerTags : List String) : List String :=
  cur.filter (fun t => ¬ t ∈ offerTags)

/-! ## Data model

`Offer` and `OfferItem` follow the prisma schema: an offer owns its line
items (the synchronizer always loads them with `include: { items: true }`),
dates are kept as the strings the form submitted, and decimal columns are
rationals.  `priceType` and `pricingFormat` stay strings because the code
compares them with `===` against string literals. -/

/-- Offer lifecycle status (prisma enum, default PENDING). -/
inductive OfferStatus where
  | PENDING
  | ACTIVE
  | COMPLETED
deriving DecidableEq, Repr

/-- A line item of an offer: SKU, target sale price, and the price recorded
at activation time for later reversal (`null` until activated). -/
structure OfferItem where
  id : ℕ
  sku : String
  offerPrice : ℚ
  originalPrice : Option ℚ
deriving DecidableEq, Repr

/-- An offer header together with its owned items. -/
structure Offer where
  id : ℕ
  title : String
  vendor : String
  status : OfferStatus
  priceType : String
  pricingFormat : String
  markup : Option ℚ
  discount : Option ℚ
  startDate : Option String
  endDate : Option String
  tags : String
  items : List OfferItem
deriving DecidableEq, Repr

/-- A remote product variant as returned by the `productVariants` query. -/
structure Variant where
  vid : ℕ
  sku : String
  price : ℚ
  productId : ℕ
deriving DecidableEq, Repr

/-- A remote product (carries the tag list mutated by `productUpdate`). -/
structure Product where
  pid : ℕ
  tags : List String
deriving DecidableEq, Repr

/-- The remote catalog: all variants and products of the shop. -/
structure Shop where
  variants : List Variant
  products : List Product
deriving DecidableEq, Repr

/-- The whole mutable state: the local offer table and the remote shop. -/
structure World where
  db : List Offer
  shop : Shop
deriving DecidableEq, Repr

/-- The node shape delivered by the `productVariants(first: 1, query: "sku:…")`
lookup: variant id, its price, and its product id and product tags. -/
structure VariantNode where
  vid : ℕ
  price : ℚ
  productId : ℕ
  productTags : List String
deriving DecidableEq, Repr

/-- `prisma.offer.findUnique({ where: { id } })` : first offer with that id. -/
def findOffer (db : List Offer) (oid : ℕ) : Option Offer :=
  (db.filter (fun o => o.id = oid)).head?

/-- Status of an offer row, if the row exists. -/
def statusOf (db : List Offer) (oid : ℕ) : Option OfferStatus :=
  (findOffer db oid).map Offer.status

/-- All item rows of the OfferItem table. -/
def allItems (db : List Offer) : List OfferItem := db.flatMap Offer.items

/-- `prisma.offerItem` row with the given id (item ids are globally unique). -/
def findItem (db : List Offer) (itemId : ℕ) : Option OfferItem :=
  ((allItems db).filter (fun it => it.id = itemId)).head?

/-- The recorded `originalPrice` of an item row, if the row exists. -/
def origOf (db : List Offer) (itemId : ℕ) : Option (Option ℚ) :=
  (findItem db itemId).map OfferItem.originalPrice

/-- `prisma.offerItem.update({ where: { id }, data: { originalPrice } })`. -/
def updateItemOrig (db : List Offer) (itemId : ℕ) (p : ℚ) : List Offer :=
  db.map fun o =>
    { o with items := o.items.map fun it =>
        if it.id = itemId then { it with originalPrice := some p } else it }

/-- `prisma.offer.update({ where: { id }, data: { status } })`. -/
def setOfferStatus (db : List Offer) (oid : ℕ) (st : OfferStatus) : List Offer :=
  db.map fun o => if o.id = oid then { o with status := st } else o

/-- Look up a product by id. -/
def findProduct (shop : Shop) (pid : ℕ) : Option Product :=
  (shop.products.filter (fun p => p.pid = pid)).head?

/-- Tags of a product (empty when the product does not exist). -/
def productTagsOf (shop : Shop) (pid : ℕ) : List String :=
  ((findProduct shop pid).map Product.tags).getD []

/-- The `productVariants(first: 1, query: "sku:<sku>")` lookup: the first
variant whose SKU matches, packaged with its product's id and tags. -/
def findVariantNode (shop : Shop) (sku : String) : Option VariantNode :=
  match (shop.variants.filter (fun v => v.sku = sku)).head? with
  | none => none
  | some v => some ⟨v.vid, v.price, v.productId, productTagsOf shop v.productId⟩

/-- The SKUs present in the remote catalog. -/
def skuList (shop : Shop) : List String := shop.variants.map Variant.sku

/-- The `productVariantsBulkUpdate` price mutation on one variant. -/
def setVariantPrice (shop : Shop) (vid : ℕ) (p : ℚ) : Shop :=
  { shop with variants := shop.variants.map fun v =>
      if v.vid = vid then { v with price := p } else v }

/-- The `productUpdate` tags mutation on one product. -/
def setProductTags (shop : Shop) (pid : ℕ) (ts : List String) : Shop :=
  { shop with products := shop.products.map fun p =>
      if p.pid = pid then { p with tags := ts } else p }

/-! ## Price synchronizer — `applyOfferPrices`

The loop body of `applyOfferPrices` (from `price-updater.server.ts`) per
item: look the variant up by SKU; if absent, warn and continue; otherwise
record `originalPrice` (the variant's current remote price for an OFFER
offer, the item's own `offerPrice` for a REGULAR offer), issue the price
mutation setting the variant to `offerPrice`, and, when the offer has
tags, merge them into the product's tags.  Each processed item leaves one
trace event; an empty trace means no remote call was issued at all. -/

/-- Trace of one activation loop iteration: `skipped` = the SKU lookup found
no variant (warning logged, item skipped); `applied` = the lookup returned a
variant (`readPrice` is its remote price in the lookup response, read before
any mutation for this item) and the price mutation set it to `newPrice`. -/
inductive ApplyEv where
  | skipped (itemId : ℕ) (sku : String)
  | applied (itemId : ℕ) (vid : ℕ) (readPrice : ℚ) (newPrice : ℚ)
deriving DecidableEq, Repr

/-- The offer item an activation event belongs to. -/
def ApplyEv.itemId : ApplyEv → ℕ
  | .skipped i _ => i
  | .applied i _ _ _ => i

/-- The remote effect of one activation iteration on a found variant: the
price mutation setting it to the item's `offerPrice`, followed by the tag
merge on its product when the offer has tags. -/
def applyShopUpd (offerTags : List String) (sh : Shop) (v : VariantNode)
    (np : ℚ) : Shop :=
  let sh1 := setVariantPrice sh v.vid np
  if offerTags.isEmpty then sh1
  else setProductTags sh1 v.productId (mergeTags v.productTags offerTags)

/-- One iteration of the activation loop over a single item. -/
def applyStep (pt : String) (offerTags : List String) (w : World)
    (item : OfferItem) : World × List ApplyEv :=
  match findVariantNode w.shop item.sku with
  | none => (w, [ApplyEv.skipped item.id item.sku])
  | some v =>
    let priceToStore : ℚ := if pt = "REGULAR" then item.offerPrice else v.price
    (⟨updateItemOrig w.db item.id priceToStore,
      applyShopUpd offerTags w.shop v item.offerPrice⟩,
     [ApplyEv.applied item.id v.vid v.price item.offerPrice])

/-- The `for (const item of offer.items)` loop of `applyOfferPrices`. -/
def applyLoop (pt : String) (offerTags : List String) :
    List OfferItem → World → World × List ApplyEv
  | [], w => (w, [])
  | item :: rest, w =>
    let s := applyStep pt offerTags w item
    let r := applyLoop pt offerTags rest s.1
    (r.1, s.2 ++ r.2)

/-- `applyOfferPrices(admin, offerId)`: load the offer with its items; if it
is missing or not PENDING, log and return (no remote call); otherwise run
the item loop and finally set the status to ACTIVE. -/
def applyOfferPrices (w : World) (oid : ℕ) : World × List ApplyEv :=
  match findOffer w.db oid with
  | none => (w, [])
  | some offer =>
    if offer.status = OfferStatus.PENDING then
      let r := applyLoop offer.priceType (parseTags offer.tags) offer.items w
      (⟨setOfferStatus r.1.db oid OfferStatus.ACTIVE, r.1.shop⟩, r.2)
    else (w, [])

/-! ## Price synchronizer — `revertOfferPrices` -/

/-- Trace of one revert loop iteration.  Items whose `originalPrice` is null
are skipped without any remote call and leave no event. -/
inductive RevertEv where
  | notFound (itemId : ℕ) (sku : String)
  | reverted (itemId : ℕ) (vid : ℕ) (restoredPrice : ℚ)
deriving DecidableEq, Repr

/-- The offer item a revert event belongs to. -/
def RevertEv.itemId : RevertEv → ℕ
  | .notFound i _ => i
  | .reverted i _ _ => i

/-- One iteration of the revert loop over a single item: only items with a
non-null `originalPrice` issue the lookup; a found variant gets its price
set back to `originalPrice` and, when the offer has tags, those tags are
removed from its product. -/
def revertStep (offerTags : List String) (w : World)
    (item : OfferItem) : World × List RevertEv :=
  match item.originalPrice with
  | none => (w, [])
  | some p =>
    match findVariantNode w.shop item.sku with
    | none => (w, [RevertEv.notFound item.id item.sku])
    | some v =>
      let shop1 := setVariantPrice w.shop v.vid p
      let shop2 :=
        if offerTags.isEmpty then shop1
        else setProductTags shop1 v.productId (removeTags v.productTags offerTags)
      (⟨w.db, shop2⟩, [RevertEv.reverted item.id v.vid p])


/-- The `for (const item of offer.items)` loop of `revertOfferPrices`. -/
def revertLoop (offerTags : List String) :
    List OfferItem → World → World × List RevertEv
  | [], w => (w, [])
  | item :: rest, w =>
    let s := revertStep offerTags w item
    let r := revertLoop offerTags rest s.1
    (r.1, s.2 ++ r.2)

/-- `revertOfferPrices(admin, offerId)`: load the offer with its items; if it
is missing or not ACTIVE, log and return (no remote call); otherwise run the
revert loop and finally set the status to COMPLETED. -/
def revertOfferPrices (w : World) (oid : ℕ) : World × List RevertEv :=
  match findOffer w.db oid with
  | none => (w, [])
  | some offer =>
    if offer.status = OfferStatus.ACTIVE then
      let r := revertLoop (parseTags offer.tags) offer.items w
      (⟨setOfferStatus r.1.db oid OfferStatus.COMPLETED, r.1.shop⟩, r.2)
    else (w, [])

/-! ## CSV parser

`parseCSV` (newer variant, `csv-parser.server.ts` as imported by the edit
route) calls the external `csv-parse` library with
`columns: header => header.map(c => c.toLowerCase().trim())`,
`skip_empty_lines: true` and `trim: true`, then validates the normalized
header and projects each record to its `sku` cell and the price cell whose
name depends on the pricing format.  The library itself is external to the
repository; it is modelled here for unquoted CSV text: records are the
comma-split, cell-trimmed contents of the non-empty lines, the first record
is the header, and a data record whose cell count differs from the header's
is a parse error.  A record is a JavaScript object built from the header,
so a field access reads the cell under the last header of that name. -/

/-- One parsed CSV record as returned by `parseCSV`. -/
structure CSVRow where
  sku : String
  price : String
deriving DecidableEq, Repr

/-- The lines of the CSV text. -/
def csvLines (content : String) : List String := jsSplit '\n' content

/-- The cells of one CSV line (`trim: true` trims each cell). -/
def csvCells (line : String) : List String := (jsSplit ',' line).map jsTrim

/-- The records of the CSV text (`skip_empty_lines: true` drops lines that
hold nothing but whitespace). -/
def csvRecords (content : String) : List (List String) :=
  ((csvLines content).filter (fun l => jsTrim l ≠ "")).map csvCells

/-- The `columns` option applied to the header record. -/
def normHeader (h : List String) : List String :=
  h.map (fun c => jsTrim (jsLower c))

/-- The `csv-parse` call of `parseCSV`: normalized header and data records,
or a parse error when a record's length does not match the header's. -/
def parseRecords (content : String) :
    Except String (List String × List (List String)) :=
  match csvRecords content with
  | [] => Except.ok ([], [])
  | header :: rows =>
    let h := normHeader header
    if rows.all (fun r => r.length = h.length) then Except.ok (h, rows)
    else Except.error "Invalid Record Length"

/-- JavaScript field access `record[key]` on a record object built by zipping
the header with a row (a duplicated header name keeps its last cell). -/
def recordGet (h row : List String) (key : String) : String :=
  ((((h.zip row).filter (fun c => c.1 = key)).getLast?).map Prod.snd).getD ""

/-- The price column name `parseCSV` requires for the pricing format. -/
def expectedPriceHeader (pricingFormat : String) : String :=
  if pricingFormat = "BASE" then "base price" else "actual price"

/-- `parseCSV(content, pricingFormat)`: parse the records; when at least one
data record exists, require a `sku` column and the format-specific price
column; project every record to its SKU and price cells. -/
def parseCSV (content : String) (pricingFormat : String) :
    Except String (List CSVRow) :=
  match parseRecords content with
  | Except.error e => Except.error e
  | Except.ok (h, rows) =>
    let expected := expectedPriceHeader pricingFormat
    if rows.length > 0 then
      if "sku" ∈ h then
        if expected ∈ h then
          Except.ok (rows.map fun r => ⟨recordGet h r "sku", recordGet h r expected⟩)
        else Except.error "CSV must contain the format price column."
      else Except.error "CSV must contain sku column."
    else Except.ok (rows.map fun r => ⟨recordGet h r "sku", recordGet h r expected⟩)

/-! ## Edit route (`app.offers.$id.edit.tsx`) -/

/-- A plain decimal parser standing in for JavaScript `parseFloat` on the
well-formed decimal strings the routes feed it (digits with an optional
fraction and an optional leading minus); malformed input is out of scope
for every claim and parses to 0. -/
def parseDecDigits (l : List Char) : ℕ :=
  l.foldl (fun a c => a * 10 + (c.toNat - 48)) 0

/-- See `parseDecDigits`. -/
def parseDec (s : String) : ℚ :=
  let t0 := trimChars s.data
  let neg := t0.head? = some '-'
  let t := if neg then t0.tail else t0
  let q : ℚ :=
    match splitOnChar '.' t with
    | [i] => mkRat (Int.ofNat (parseDecDigits i)) 1
    | [i, f] =>
      mkRat (Int.ofNat (parseDecDigits i * 10 ^ f.length + parseDecDigits f)) (10 ^ f.length)
    | _ => 0
  if neg then -q else q

/-- The per-item price computation of the edit action (lines 105–110):
`offerPrice = parseFloat(item.price)`, overwritten for the BASE format by
`(basePrice * markup) * (1 - discount / 100)`. -/
def computeOfferPrice (pricingFormat : String) (parsedPrice markup discount : ℚ) : ℚ :=
  if pricingFormat = "BASE" then (parsedPrice * markup) * (1 - discount / 100)
  else parsedPrice

/-- Result of the edit-route loader: 404 for a missing offer, 400 for a
non-PENDING offer, otherwise the offer for the form. -/
inductive LoaderResult where
  | notFound
  | cannotEdit
  | ok (offer : Offer)
deriving DecidableEq, Repr

/-- The edit-route `loader`: find the offer; throw 404 when absent and 400
(`Offer cannot be edited`) when its status is not PENDING. -/
def editLoader (db : List Offer) (oid : ℕ) : LoaderResult :=
  match findOffer db oid with
  | none => LoaderResult.notFound
  | some offer =>
    if offer.status = OfferStatus.PENDING then LoaderResult.ok offer
    else LoaderResult.cannotEdit

/-- The multipart form fields the edit action reads (absent fields arrive as
the empty string, the optional CSV upload as its text content). -/
structure EditForm where
  title : String
  vendor : String
  priceType : String
  pricingFormat : String
  startDate : String
  endDate : String
  tags : String
  markupStr : String
  discountStr : String
  file : Option String
deriving DecidableEq, Repr

/-- The edit-route `action` on the offer table: field validation, optional
CSV parse with per-item price computation, then an unconditional
`prisma.offer.update` replacing the offer's fields (and its items when a
file was supplied).  The action performs no status check.  Fresh item row
ids assigned by the store are not modelled (new rows get id 0). -/
def editAction (db : List Offer) (oid : ℕ) (form : EditForm) :
    Except String (List Offer) :=
  if form.title = "" ∨ form.vendor = "" ∨ form.priceType = "" ∨ form.pricingFormat = "" then
    Except.error "Missing required fields"
  else if form.priceType = "OFFER" ∧ (form.startDate = "" ∨ form.endDate = "") then
    Except.error "Start and End dates are required for Offer price type"
  else if form.pricingFormat = "BASE" ∧ (form.markupStr = "" ∨ form.discountStr = "") then
    Except.error "Markup and Discount are required for Base pricing format"
  else
    let markup : ℚ := if form.markupStr = "" then 0 else parseDec form.markupStr
    let discount : ℚ := if form.discountStr = "" then 0 else parseDec form.discountStr
    let newItems : Except String (Option (List OfferItem)) :=
      match form.file with
      | none => Except.ok none
      | some content =>
        if content = "" then Except.ok none
        else
          match parseCSV content form.pricingFormat with
          | Except.error e => Except.error ("Invalid CSV: " ++ e)
          | Except.ok rows =>
            Except.ok (some (rows.map fun r =>
              { id := 0, sku := r.sku,
                offerPrice := computeOfferPrice form.pricingFormat (parseDec r.price) markup discount,
                originalPrice := none }))
    match newItems with
    | Except.error e => Except.error e
    | Except.ok itemsOpt =>
      if (findOffer db oid).isSome then
        Except.ok (db.map fun o =>
          if o.id = oid then
            { o with
              title := form.title
              vendor := form.vendor
              priceType := form.priceType
              pricingFormat := form.pricingFormat
              markup := if form.pricingFormat = "BASE" then some markup else none
              discount := if form.pricingFormat = "BASE" then some discount else none
              startDate := if form.priceType = "OFFER" ∧ form.startDate ≠ "" then some form.startDate else none
              endDate := if form.priceType = "OFFER" ∧ form.endDate ≠ "" then some form.endDate else none
              tags := form.tags
              items := itemsOpt.getD o.items }
          else o)
      else Except.error "Record to update not found"

/-! ## Concrete states

Small concrete worlds used to instantiate the theorems below. -/

/-- A pending line item for SKU `SK1` at a target price of 7. -/
def sampleItem : OfferItem :=
  { id := 11, sku := "SK1", offerPrice := 7, originalPrice := none }

/-- A PENDING, OFFER-type offer with tag `sale` and one item. -/
def sampleOffer : Offer :=
  { id := 1, title := "Spring sale", vendor := "acme",
    status := OfferStatus.PENDING, priceType := "OFFER",
    pricingFormat := "ACTUAL", markup := none, discount := none,
    startDate := some "2025-01-01", endDate := some "2025-02-01",
    tags := "sale", items := [sampleItem] }

/-- A catalog holding `SK1` at price 5 on a product tagged `x`. -/
def sampleShop : Shop :=
  { variants := [{ vid := 10, sku := "SK1", price := 5, productId := 20 }],
    products := [{ pid := 20, tags := ["x"] }] }

/-- The world pairing `sampleOffer` with `sampleShop`. -/
def sampleWorld : World := { db := [sampleOffer], shop := sampleShop }

/-- `sampleOffer` as a REGULAR (permanent) price change. -/
def regularOffer : Offer := { sampleOffer with priceType := "REGULAR" }

/-- The world pairing `regularOffer` with `sampleShop`. -/
def regularWorld : World := { db := [regularOffer], shop := sampleShop }

/-- `sampleOffer` after its lifecycle ended. -/
def doneOffer : Offer := { sampleOffer with status := OfferStatus.COMPLETED }

/-- The world pairing `doneOffer` with `sampleShop`. -/
def doneWorld : World := { db := [doneOffer], shop := sampleShop }

/-- An ACTIVE offer with one activated item (recorded original price 5) and
one item that was never activated (null `originalPrice`). -/
def activeOffer : Offer :=
  { sampleOffer with
    status := OfferStatus.ACTIVE,
    items := [{ id := 11, sku := "SK1", offerPrice := 7, originalPrice := some 5 },
              { id := 12, sku := "SK2", offerPrice := 9, originalPrice := none }] }

/-- The world pairing `activeOffer` with `sampleShop`. -/
def activeWorld : World := { db := [activeOffer], shop := sampleShop }

/-- The state a crash leaves when `applyOfferPrices` dies after the item
loop ran over `sampleOffer`'s items but before the status flip: prices and
tags are already pushed, `originalPrice` is recorded, and the offer is
still PENDING. -/
def crashWorld : World :=
  (applyLoop "OFFER" (parseTags sampleOffer.tags) sampleOffer.items sampleWorld).1

/-- The offer row as stored inside `crashWorld`. -/
def crashOffer : Offer :=
  { sampleOffer with
    items := [{ id := 11, sku := "SK1", offerPrice := 7, originalPrice := some 5 }] }

/-- An ACTIVE offer row subjected to a direct edit submission. -/
def oldOffer : Offer :=
  { id := 1, title := "Old", vendor := "acme", status := OfferStatus.ACTIVE,
    priceType := "REGULAR", pricingFormat := "ACTUAL", markup := none,
    discount := none, startDate := none, endDate := none, tags := "",
    items := [] }

/-- The offer table holding only `oldOffer`. -/
def editDb : List Offer := [oldOffer]

/-- A well-formed edit submission (no CSV upload) retitling the offer. -/
def editForm : EditForm :=
  { title := "New", vendor := "acme", priceType := "REGULAR",
    pricingFormat := "ACTUAL", startDate := "", endDate := "", tags := "",
    markupStr := "", discountStr := "", file := none }

/-- `oldOffer` as the edit action rewrites it. -/
def editedOffer : Offer := { oldOffer with title := "New" }

/-! ## General lemmas about the row lookups -/

/-- Pushing an id-preserving row update through a filtered first-row lookup. -/
lemma filter_head_map {α : Type} (g : α → α) (p : α → Bool)
    (hg : ∀ x, p (g x) = p x) :
    ∀ L : List α, ((L.map g).filter p).head? = ((L.filter p).head?).map g := by
  intro L
  induction L with
  | nil => rfl
  | cons a L ih =>
    by_cases h : p a = true
    · simp [List.filter_cons, hg, h]
    · simp only [Bool.not_eq_true] at h
      simp [List.filter_cons, hg, h, ih]

/-- The first row matching a filter does match it. -/
lemma head_filter_pred {α : Type} (p : α → Bool) (L : List α) (x : α)
    (h : (L.filter p).head? = some x) : p x = true := by
  have hx : x ∈ L.filter p := by
    cases hL : L.filter p with
    | nil => rw [hL] at h; cases h
    | cons b t =>
      rw [hL] at h
      have hbx : b = x := by simpa using h
      exact hbx ▸ List.mem_cons_self b t
  exact (List.mem_filter.mp hx).2

/-- A row matching the filter makes the first-match lookup succeed. -/
lemma head_filter_isSome {α : Type} (p : α → Bool) (L : List α) (x : α)
    (hx : x ∈ L) (hpx : p x = true) : ((L.filter p).head?).isSome := by
  cases hL : L.filter p with
  | nil => exact absurd (List.mem_filter.mpr ⟨hx, hpx⟩) (by rw [hL]; simp)
  | cons a t => simp

/-! ## Lemmas about the store operations -/

/-- The per-item function applied by `updateItemOrig`. -/
def origItemUpd (i : ℕ) (p : ℚ) : OfferItem → OfferItem :=
  fun it => if it.id = i then { it with originalPrice := some p } else it

/-- The per-offer function applied by `updateItemOrig`. -/
def origOfferUpd (i : ℕ) (p : ℚ) : Offer → Offer :=
  fun o => { o with items := o.items.map (origItemUpd i p) }

/-- `updateItemOrig` is the pointwise update by `origOfferUpd`. -/
lemma updateItemOrig_eq_map (db : List Offer) (i : ℕ) (p : ℚ) :
    updateItemOrig db i p = db.map (origOfferUpd i p) := rfl

/-- `origItemUpd` never changes an item's id. -/
lemma origItemUpd_id (i : ℕ) (p : ℚ) (it : OfferItem) :
    (origItemUpd i p it).id = it.id := by
  unfold origItemUpd
  by_cases h : it.id = i <;> simp [h]

/-- An offer-table update that maps every row's item list maps the item
table pointwise. -/
lemma allItems_map_items (g : OfferItem → OfferItem) (db : List Offer) :
    allItems (db.map fun o => { o with items := o.items.map g })
      = (allItems db).map g := by
  unfold allItems
  induction db with
  | nil => rfl
  | cons o db ih => simp [List.flatMap_cons, List.map_append, ih]

/-- An offer-table update that keeps every row's items keeps the item table. -/
lemma allItems_map_keep (f : Offer → Offer) (hf : ∀ o, (f o).items = o.items)
    (db : List Offer) : allItems (db.map f) = allItems db := by
  unfold allItems
  induction db with
  | nil => rfl
  | cons o db ih => simp [List.flatMap_cons, hf, ih]

/-- `findItem` through an id-preserving pointwise item update. -/
lemma findItem_map_items (g : OfferItem → OfferItem)
    (hg : ∀ it, (g it).id = it.id) (db : List Offer) (j : ℕ) :
    findItem (db.map fun o => { o with items := o.items.map g }) j
      = (findItem db j).map g := by
  unfold findItem
  rw [allItems_map_items]
  exact filter_head_map g (fun it => it.id = j) (fun it => by simp [hg]) (allItems db)

/-- `findOffer` through an id-preserving offer-row update. -/
lemma findOffer_map (f : Offer → Offer) (hf : ∀ o, (f o).id = o.id)
    (db : List Offer) (oid : ℕ) :
    findOffer (db.map f) oid = (findOffer db oid).map f :=
  filter_head_map f (fun o => o.id = oid) (fun o => by simp [hf]) db

/-- A found item row carries the id it was looked up by. -/
lemma findItem_id (db : List Offer) (j : ℕ) (row : OfferItem)
    (h : findItem db j = some row) : row.id = j := by
  have h' : ((allItems db).filter (fun it => it.id = j)).head? = some row := h
  exact of_decide_eq_true (head_filter_pred (fun it => it.id = j) (allItems db) row h')

/-- A found offer row carries the id it was looked up by. -/
lemma findOffer_id (db : List Offer) (oid : ℕ) (o : Offer)
    (h : findOffer db oid = some o) : o.id = oid := by
  have h' : (db.filter (fun o => o.id = oid)).head? = some o := h
  exact of_decide_eq_true (head_filter_pred (fun o => o.id = oid) db o h')

/-- `findItem` through `updateItemOrig`. -/
lemma findItem_updateItemOrig (db : List Offer) (i : ℕ) (p : ℚ) (j : ℕ) :
    findItem (updateItemOrig db i p) j = (findItem db j).map (origItemUpd i p) := by
  rw [updateItemOrig_eq_map]
  exact findItem_map_items (origItemUpd i p) (origItemUpd_id i p) db j

/-- Updating an item's `originalPrice` sets exactly that field. -/
lemma origOf_updateItemOrig_self (db : List Offer) (i : ℕ) (p : ℚ)
    (h : (findItem db i).isSome) :
    origOf (updateItemOrig db i p) i = some (some p) := by
  obtain ⟨row, hrow⟩ := Option.isSome_iff_exists.mp h
  have hid : row.id = i := findItem_id db i row hrow
  unfold origOf
  rw [findItem_updateItemOrig, hrow]
  simp [origItemUpd, hid]

/-- Updating one item's `originalPrice` leaves every other item unchanged. -/
lemma findItem_updateItemOrig_ne (db : List Offer) (i j : ℕ) (p : ℚ)
    (hne : j ≠ i) :
    findItem (updateItemOrig db i p) j = findItem db j := by
  rw [findItem_updateItemOrig]
  cases hrow : findItem db j with
  | none => rfl
  | some row =>
    have hid : row.id = j := findItem_id db j row hrow
    simp [origItemUpd, hid, hne]

/-- `updateItemOrig` keeps every item row present. -/
lemma findItem_isSome_updateItemOrig (db : List Offer) (i j : ℕ) (p : ℚ) :
    (findItem (updateItemOrig db i p) j).isSome = (findItem db j).isSome := by
  rw [findItem_updateItemOrig]
  cases findItem db j <;> rfl

/-- Setting an offer's status does not touch the item table. -/
lemma findItem_setOfferStatus (db : List Offer) (oid : ℕ) (st : OfferStatus)
    (j : ℕ) : findItem (setOfferStatus db oid st) j = findItem db j := by
  unfold findItem
  rw [show allItems (setOfferStatus db oid st) = allItems db from
    allItems_map_keep _ (fun o => by by_cases h : o.id = oid <;> simp [h]) db]

/-- Updating an item's `originalPrice` does not touch any offer's status. -/
lemma statusOf_updateItemOrig (db : List Offer) (i : ℕ) (p : ℚ) (oid : ℕ) :
    statusOf (updateItemOrig db i p) oid = statusOf db oid := by
  unfold statusOf
  rw [updateItemOrig_eq_map, findOffer_map (origOfferUpd i p) (fun o => rfl) db oid]
  cases findOffer db oid <;> rfl

/-- `findOffer` keeps succeeding through `updateItemOrig`. -/
lemma findOffer_isSome_updateItemOrig (db : List Offer) (i : ℕ) (p : ℚ)
    (oid : ℕ) :
    (findOffer (updateItemOrig db i p) oid).isSome = (findOffer db oid).isSome := by
  rw [updateItemOrig_eq_map, findOffer_map (origOfferUpd i p) (fun o => rfl) db oid]
  cases findOffer db oid <;> rfl

/-- Setting the status of an existing offer stores exactly that status. -/
lemma statusOf_setOfferStatus_self (db : List Offer) (oid : ℕ) (st : OfferStatus)
    (h : (findOffer db oid).isSome) :
    statusOf (setOfferStatus db oid st) oid = some st := by
  obtain ⟨o, ho⟩ := Option.isSome_iff_exists.mp h
  have hid : o.id = oid := findOffer_id db oid o ho
  unfold statusOf setOfferStatus
  rw [findOffer_map (fun o => if o.id = oid then { o with status := st } else o)
    (fun o => by by_cases h : o.id = oid <;> simp [h]) db oid, ho]
  simp [hid]

/-! ## Lemmas about the remote shop -/

/-- The first filtered element is a member of the list. -/
lemma head_filter_mem {α : Type} (p : α → Bool) (L : List α) (x : α)
    (h : (L.filter p).head? = some x) : x ∈ L := by
  have hx : x ∈ L.filter p := by
    cases hL : L.filter p with
    | nil => rw [hL] at h; cases h
    | cons b t =>
      rw [hL] at h
      have hbx : b = x := by simpa using h
      exact hbx ▸ List.mem_cons_self b t
  exact (List.mem_filter.mp hx).1

/-- Price mutations do not change which SKUs exist. -/
lemma skuList_setVariantPrice (sh : Shop) (vid : ℕ) (p : ℚ) :
    skuList (setVariantPrice sh vid p) = skuList sh := by
  unfold skuList setVariantPrice
  simp only [List.map_map]
  refine List.map_congr_left (fun v _ => ?_)
  by_cases h : v.vid = vid <;> simp [h]

/-- Tag mutations do not change which SKUs exist. -/
lemma skuList_setProductTags (sh : Shop) (pid : ℕ) (ts : List String) :
    skuList (setProductTags sh pid ts) = skuList sh := rfl

/-- The activation shop effect does not change which SKUs exist. -/
lemma skuList_applyShopUpd (offerTags : List String) (sh : Shop)
    (v : VariantNode) (np : ℚ) :
    skuList (applyShopUpd offerTags sh v np) = skuList sh := by
  unfold applyShopUpd
  by_cases h : offerTags.isEmpty <;>
    simp [h, skuList_setProductTags, skuList_setVariantPrice]

/-- The SKU lookup succeeds exactly for SKUs present in the catalog. -/
lemma findVariantNode_isSome_iff (sh : Shop) (s : String) :
    (findVariantNode sh s).isSome ↔ s ∈ skuList sh := by
  unfold findVariantNode
  cases h : (sh.variants.filter (fun v => v.sku = s)).head? with
  | none =>
    simp only [Option.isSome_none, Bool.false_eq_true, false_iff]
    intro hs
    obtain ⟨v, hv, hvs⟩ := List.mem_map.mp hs
    have := head_filter_isSome (fun v => v.sku = s) sh.variants v hv (by simp [hvs])
    rw [h] at this
    cases this
  | some v =>
    have hvm : v ∈ sh.variants := head_filter_mem _ _ _ h
    have hvs : v.sku = s :=
      of_decide_eq_true (head_filter_pred (fun v => v.sku = s) sh.variants v h)
    simp only [Option.isSome_some, true_iff]
    exact List.mem_map.mpr ⟨v, hvm, hvs⟩

/-! ## Invariants of the activation loop -/

/-- Unfolding of one activation iteration whose SKU lookup found nothing. -/
lemma applyStep_none (pt : String) (offerTags : List String) (w : World)
    (item : OfferItem) (h : findVariantNode w.shop item.sku = none) :
    applyStep pt offerTags w item = (w, [ApplyEv.skipped item.id item.sku]) := by
  unfold applyStep
  rw [h]

/-- Unfolding of one activation iteration whose SKU lookup found a variant. -/
lemma applyStep_some (pt : String) (offerTags : List String) (w : World)
    (item : OfferItem) (v : VariantNode)
    (h : findVariantNode w.shop item.sku = some v) :
    applyStep pt offerTags w item
      = (⟨updateItemOrig w.db item.id (if pt = "REGULAR" then item.offerPrice else v.price),
          applyShopUpd offerTags w.shop v item.offerPrice⟩,
         [ApplyEv.applied item.id v.vid v.price item.offerPrice]) := by
  unfold applyStep
  rw [h]

/-- Unfolding of the activation loop on a cons cell. -/
lemma applyLoop_cons (pt : String) (offerTags : List String) (item : OfferItem)
    (rest : List OfferItem) (w : World) :
    applyLoop pt offerTags (item :: rest) w
      = ((applyLoop pt offerTags rest (applyStep pt offerTags w item).1).1,
         (applyStep pt offerTags w item).2
           ++ (applyLoop pt offerTags rest (applyStep pt offerTags w item).1).2) := rfl

/-- One activation iteration does not change which SKUs exist. -/
lemma applyStep_skuList (pt : String) (offerTags : List String) (w : World)
    (item : OfferItem) :
    skuList (applyStep pt offerTags w item).1.shop = skuList w.shop := by
  cases h : findVariantNode w.shop item.sku with
  | none => rw [applyStep_none pt offerTags w item h]
  | some v => rw [applyStep_some pt offerTags w item v h]
              exact skuList_applyShopUpd offerTags w.shop v item.offerPrice

/-- One activation iteration keeps every item row present. -/
lemma applyStep_findItem_isSome (pt : String) (offerTags : List String)
    (w : World) (item : OfferItem) (j : ℕ) :
    (findItem (applyStep pt offerTags w item).1.db j).isSome
      = (findItem w.db j).isSome := by
  cases h : findVariantNode w.shop item.sku with
  | none => rw [applyStep_none pt offerTags w item h]
  | some v => rw [applyStep_some pt offerTags w item v h]
              exact findItem_isSome_updateItemOrig w.db item.id j _

/-- One activation iteration does not change any offer's status. -/
lemma applyStep_statusOf (pt : String) (offerTags : List String) (w : World)
    (item : OfferItem) (oid : ℕ) :
    statusOf (applyStep pt offerTags w item).1.db oid = statusOf w.db oid := by
  cases h : findVariantNode w.shop item.sku with
  | none => rw [applyStep_none pt offerTags w item h]
  | some v => rw [applyStep_some pt offerTags w item v h]
              exact statusOf_updateItemOrig w.db item.id _ oid

/-- The activation loop does not change which SKUs exist. -/
lemma applyLoop_skuList (pt : String) (offerTags : List String) :
    ∀ (items : List OfferItem) (w : World),
    skuList (applyLoop pt offerTags items w).1.shop = skuList w.shop := by
  intro items
  induction items with
  | nil => intro w; rfl
  | cons item rest ih =>
    intro w
    rw [applyLoop_cons]
    exact (ih _).trans (applyStep_skuList pt offerTags w item)

/-- The activation loop keeps every item row present. -/
lemma applyLoop_findItem_isSome (pt : String) (offerTags : List String) :
    ∀ (items : List OfferItem) (w : World) (j : ℕ),
    (findItem (applyLoop pt offerTags items w).1.db j).isSome
      = (findItem w.db j).isSome := by
  intro items
  induction items with
  | nil => intro w j; rfl
  | cons item rest ih =>
    intro w j
    rw [applyLoop_cons]
    exact (ih _ j).trans (applyStep_findItem_isSome pt offerTags w item j)

/-- The activation loop does not change any offer's status. -/
lemma applyLoop_statusOf (pt : String) (offerTags : List String) :
    ∀ (items : List OfferItem) (w : World) (oid : ℕ),
    statusOf (applyLoop pt offerTags items w).1.db oid = statusOf w.db oid := by
  intro items
  induction items with
  | nil => intro w oid; rfl
  | cons item rest ih =>
    intro w oid
    rw [applyLoop_cons]
    exact (ih _ oid).trans (applyStep_statusOf pt offerTags w item oid)

/-- The activation loop only rewrites the `originalPrice` of the items it
processes. -/
lemma applyLoop_origOf_not_mem (pt : String) (offerTags : List String) :
    ∀ (items : List OfferItem) (w : World) (i : ℕ),
    i ∉ items.map OfferItem.id →
    origOf (applyLoop pt offerTags items w).1.db i = origOf w.db i := by
  intro items
  induction items with
  | nil => intro w i _; rfl
  | cons item rest ih =>
    intro w i hi
    rw [List.map_cons] at hi
    have hne : i ≠ item.id := fun h => hi (h ▸ List.mem_cons_self _ _)
    have hrest : i ∉ rest.map OfferItem.id := fun h => hi (List.mem_cons_of_mem _ h)
    rw [applyLoop_cons]
    refine (ih _ i hrest).trans ?_
    cases h : findVariantNode w.shop item.sku with
    | none => rw [applyStep_none pt offerTags w item h]
    | some v =>
      rw [applyStep_some pt offerTags w item v h]
      unfold origOf
      rw [findItem_updateItemOrig_ne w.db item.id i _ hne]

/-- The central bookkeeping facts of the activation loop: (1) every
`applied` event leaves, in the final store, an `originalPrice` equal to the
price read in that event's lookup — or to the written price for a REGULAR
offer; (2) every item whose SKU exists in the catalog produces an `applied`
event whose written price is its `offerPrice`; (3) every item is attempted
(it produces an event). -/
lemma applyLoop_spec (pt : String) (offerTags : List String) :
    ∀ (items : List OfferItem) (w : World),
    (items.map OfferItem.id).Nodup →
    (∀ it ∈ items, (findItem w.db it.id).isSome = true) →
    (∀ i v rp np, ApplyEv.applied i v rp np ∈ (applyLoop pt offerTags items w).2 →
        origOf (applyLoop pt offerTags items w).1.db i
          = some (some (if pt = "REGULAR" then np else rp)))
    ∧ (∀ it ∈ items, it.sku ∈ skuList w.shop →
        ∃ v rp, ApplyEv.applied it.id v rp it.offerPrice
          ∈ (applyLoop pt offerTags items w).2)
    ∧ (∀ it ∈ items, ∃ e ∈ (applyLoop pt offerTags items w).2,
        ApplyEv.itemId e = it.id) := by
  intro items
  induction items with
  | nil =>
    intro w _ _
    refine ⟨fun i v rp np hmem => absurd hmem (by simp [applyLoop]), ?_, ?_⟩
    · intro it hit; cases hit
    · intro it hit; cases hit
  | cons item rest ih =>
    intro w hnd hsome
    rw [List.map_cons, List.nodup_cons] at hnd
    obtain ⟨hnotin, hndrest⟩ := hnd
    cases h : findVariantNode w.shop item.sku with
    | none =>
      have ihw := ih w hndrest (fun it hit => hsome it (List.mem_cons_of_mem _ hit))
      rw [applyLoop_cons, applyStep_none pt offerTags w item h]
      refine ⟨?_, ?_, ?_⟩
      · intro i v rp np hmem
        simp only [List.cons_append, List.nil_append, List.mem_cons] at hmem
        rcases hmem with heq | hmem
        · cases heq
        · exact ihw.1 i v rp np hmem
      · intro it hit hsku
        rcases List.mem_cons.mp hit with heq | hit
        · subst heq
          have hs := (findVariantNode_isSome_iff w.shop it.sku).mpr hsku
          rw [h] at hs
          cases hs
        · obtain ⟨v, rp, hv⟩ := ihw.2.1 it hit hsku
          exact ⟨v, rp, by
            simp only [List.cons_append, List.nil_append, List.mem_cons]
            exact Or.inr hv⟩
      · intro it hit
        rcases List.mem_cons.mp hit with heq | hit
        · subst heq
          exact ⟨ApplyEv.skipped it.id it.sku, by simp, rfl⟩
        · obtain ⟨e, he, hid⟩ := ihw.2.2 it hit
          exact ⟨e, by
            simp only [List.cons_append, List.nil_append, List.mem_cons]
            exact Or.inr he, hid⟩
    | some v =>
      rw [applyLoop_cons, applyStep_some pt offerTags w item v h]
      set pts : ℚ := if pt = "REGULAR" then item.offerPrice else v.price with hpts
      set w1 : World :=
        ⟨updateItemOrig w.db item.id pts, applyShopUpd offerTags w.shop v item.offerPrice⟩
        with hw1
      have hsome1 : ∀ it ∈ rest, (findItem w1.db it.id).isSome = true := by
        intro it hit
        rw [hw1]
        rw [show (⟨updateItemOrig w.db item.id pts,
            applyShopUpd offerTags w.shop v item.offerPrice⟩ : World).db
          = updateItemOrig w.db item.id pts from rfl]
        rw [findItem_isSome_updateItemOrig]
        exact hsome it (List.mem_cons_of_mem _ hit)
      have ihw := ih w1 hndrest hsome1
      refine ⟨?_, ?_, ?_⟩
      · intro i vv rp np hmem
        simp only [List.cons_append, List.nil_append, List.mem_cons] at hmem
        rcases hmem with heq | hmem
        · have hi : i = item.id ∧ vv = v.vid ∧ rp = v.price ∧ np = item.offerPrice := by
            injection heq with h1 h2 h3 h4
            exact ⟨h1, h2, h3, h4⟩
          obtain ⟨hi1, _, hi3, hi4⟩ := hi
          subst hi1; subst hi3; subst hi4
          rw [applyLoop_origOf_not_mem pt offerTags rest w1 item.id hnotin]
          have : origOf w1.db item.id = some (some pts) := by
            rw [hw1]
            exact origOf_updateItemOrig_self w.db item.id pts
              (hsome item (List.mem_cons_self _ _))
          rw [this, hpts]
        · exact ihw.1 i vv rp np hmem
      · intro it hit hsku
        rcases List.mem_cons.mp hit with heq | hit
        · subst heq
          exact ⟨v.vid, v.price, by simp⟩
        · have hsku1 : it.sku ∈ skuList w1.shop := by
            rw [hw1]
            rw [show (⟨updateItemOrig w.db item.id pts,
                applyShopUpd offerTags w.shop v item.offerPrice⟩ : World).shop
              = applyShopUpd offerTags w.shop v item.offerPrice from rfl]
            rw [skuList_applyShopUpd]
            exact hsku
          obtain ⟨vv, rp, hv⟩ := ihw.2.1 it hit hsku1
          exact ⟨vv, rp, by
            simp only [List.cons_append, List.nil_append, List.mem_cons]
            exact Or.inr hv⟩
      · intro it hit
        rcases List.mem_cons.mp hit with heq | hit
        · subst heq
          exact ⟨ApplyEv.applied it.id v.vid v.price it.offerPrice, by simp, rfl⟩
        · obtain ⟨e, he, hid⟩ := ihw.2.2 it hit
          exact ⟨e, by
            simp only [List.cons_append, List.nil_append, List.mem_cons]
            exact Or.inr he, hid⟩

/-- Setting an offer's status does not change any item's `originalPrice`. -/
lemma origOf_setOfferStatus (db : List Offer) (oid : ℕ) (st : OfferStatus)
    (j : ℕ) : origOf (setOfferStatus db oid st) j = origOf db j := by
  unfold origOf
  rw [findItem_setOfferStatus]

/-- A found offer row is a member of the table. -/
lemma findOffer_mem (db : List Offer) (oid : ℕ) (o : Offer)
    (h : findOffer db oid = some o) : o ∈ db := by
  have h' : (db.filter (fun x => x.id = oid)).head? = some o := h
  exact head_filter_mem (fun x => x.id = oid) db o h'

/-- The items of a stored offer are a sublist of the item table. -/
lemma offer_items_sublist (db : List Offer) (o : Offer) (ho : o ∈ db) :
    o.items.Sublist (allItems db) := by
  induction db with
  | nil => cases ho
  | cons a db ih =>
    rcases List.mem_cons.mp ho with heq | hmem
    · subst heq
      exact List.sublist_append_left o.items (allItems db)
    · exact (ih hmem).trans (List.sublist_append_right a.items (allItems db))

/-- Every item of a stored offer is present as a row of the item table. -/
lemma findItem_of_offer_item (db : List Offer) (o : Offer) (ho : o ∈ db)
    (it : OfferItem) (hit : it ∈ o.items) :
    (findItem db it.id).isSome = true := by
  have hmem : it ∈ allItems db := (offer_items_sublist db o ho).mem hit
  exact head_filter_isSome (fun x => x.id = it.id) (allItems db) it hmem (by simp)

/-- The item ids of a stored offer inherit the item table's uniqueness. -/
lemma offer_items_nodup (db : List Offer) (o : Offer) (ho : o ∈ db)
    (hnd : ((allItems db).map OfferItem.id).Nodup) :
    (o.items.map OfferItem.id).Nodup :=
  ((offer_items_sublist db o ho).map OfferItem.id).nodup hnd

/-- Unfolding of `applyOfferPrices` on a PENDING offer. -/
lemma applyOfferPrices_pending (w : World) (oid : ℕ) (offer : Offer)
    (hf : findOffer w.db oid = some offer)
    (hst : offer.status = OfferStatus.PENDING) :
    applyOfferPrices w oid
      = (⟨setOfferStatus
            (applyLoop offer.priceType (parseTags offer.tags) offer.items w).1.db
            oid OfferStatus.ACTIVE,
          (applyLoop offer.priceType (parseTags offer.tags) offer.items w).1.shop⟩,
         (applyLoop offer.priceType (parseTags offer.tags) offer.items w).2) := by
  unfold applyOfferPrices
  rw [hf]
  simp [hst]

/-- C1.  `activate` on a PENDING, OFFER-type offer: the final status is
ACTIVE, and every item whose SKU exists in the catalog produced an
`applied` event whose `readPrice` — the variant price returned by the SKU
lookup issued before that item's price mutation — is exactly what the final
store records as the item's `originalPrice`. -/
theorem activate_offer_records_original_price
    (w : World) (oid : ℕ) (offer : Offer)
    (hf : findOffer w.db oid = some offer)
    (hst : offer.status = OfferStatus.PENDING)
    (hpt : offer.priceType = "OFFER")
    (hnd : ((allItems w.db).map OfferItem.id).Nodup) :
    statusOf (applyOfferPrices w oid).1.db oid = some OfferStatus.ACTIVE
    ∧ (∀ it ∈ offer.items, it.sku ∈ skuList w.shop →
        ∃ vid rp,
          ApplyEv.applied it.id vid rp it.offerPrice ∈ (applyOfferPrices w oid).2
          ∧ origOf (applyOfferPrices w oid).1.db it.id = some (some rp)) := by
  have homem : offer ∈ w.db := findOffer_mem w.db oid offer hf
  have hspec := applyLoop_spec offer.priceType (parseTags offer.tags) offer.items w
    (offer_items_nodup w.db offer homem hnd)
    (fun it hit => findItem_of_offer_item w.db offer homem it hit)
  rw [applyOfferPrices_pending w oid offer hf hst]
  constructor
  · have hpres := applyLoop_statusOf offer.priceType (parseTags offer.tags)
      offer.items w oid
    have hsome : (findOffer
        (applyLoop offer.priceType (parseTags offer.tags) offer.items w).1.db
        oid).isSome := by
      have : statusOf
          (applyLoop offer.priceType (parseTags offer.tags) offer.items w).1.db oid
          = some offer.status := by
        rw [hpres]
        unfold statusOf
        rw [hf]
        rfl
      unfold statusOf at this
      exact Option.isSome_map' ▸ (this ▸ rfl : (Option.map Offer.status _).isSome = true)
    exact statusOf_setOfferStatus_self _ oid OfferStatus.ACTIVE hsome
  · intro it hit hsku
    obtain ⟨vid, rp, hev⟩ := hspec.2.1 it hit hsku
    refine ⟨vid, rp, hev, ?_⟩
    rw [origOf_setOfferStatus]
    have := hspec.1 it.id vid rp it.offerPrice hev
    rw [this]
    rw [if_neg (by rw [hpt]; decide)]

/-- C4.  `activate` on a PENDING, REGULAR-type offer: every item whose SKU
exists in the catalog produced an `applied` event, and the final store
records the item's own `offerPrice` as its `originalPrice`. -/
theorem activate_regular_records_offer_price
    (w : World) (oid : ℕ) (offer : Offer)
    (hf : findOffer w.db oid = some offer)
    (hst : offer.status = OfferStatus.PENDING)
    (hpt : offer.priceType = "REGULAR")
    (hnd : ((allItems w.db).map OfferItem.id).Nodup) :
    ∀ it ∈ offer.items, it.sku ∈ skuList w.shop →
      origOf (applyOfferPrices w oid).1.db it.id = some (some it.offerPrice) := by
  have homem : offer ∈ w.db := findOffer_mem w.db oid offer hf
  have hspec := applyLoop_spec offer.priceType (parseTags offer.tags) offer.items w
    (offer_items_nodup w.db offer homem hnd)
    (fun it hit => findItem_of_offer_item w.db offer homem it hit)
  rw [applyOfferPrices_pending w oid offer hf hst]
  intro it hit hsku
  obtain ⟨vid, rp, hev⟩ := hspec.2.1 it hit hsku
  rw [origOf_setOfferStatus]
  have := hspec.1 it.id vid rp it.offerPrice hev
  rw [this]
  rw [if_pos hpt]

/-- C3.  When the offer is missing or its status is not the expected
precondition (PENDING for `activate`, ACTIVE for `revert`), the operation
returns the state unchanged with an empty remote trace — no remote call, no
local write, no error raised. -/
theorem activate_revert_precondition_noop (w : World) (oid : ℕ) :
    (statusOf w.db oid ≠ some OfferStatus.PENDING →
      applyOfferPrices w oid = (w, []))
    ∧ (statusOf w.db oid ≠ some OfferStatus.ACTIVE →
      revertOfferPrices w oid = (w, [])) := by
  constructor
  · intro h
    unfold applyOfferPrices
    cases hf : findOffer w.db oid with
    | none => rfl
    | some o =>
      have : o.status ≠ OfferStatus.PENDING := by
        intro hc
        exact h (by unfold statusOf; rw [hf]; simp [hc])
      simp [this]
  · intro h
    unfold revertOfferPrices
    cases hf : findOffer w.db oid with
    | none => rfl
    | some o =>
      have : o.status ≠ OfferStatus.ACTIVE := by
        intro hc
        exact h (by unfold statusOf; rw [hf]; simp [hc])
      simp [this]

/-! ## Invariants of the revert loop -/

/-- Unfolding of one revert iteration on a never-activated item. -/
lemma revertStep_none_orig (offerTags : List String) (w : World)
    (item : OfferItem) (h : item.originalPrice = none) :
    revertStep offerTags w item = (w, []) := by
  unfold revertStep
  rw [h]

/-- Unfolding of one revert iteration whose SKU lookup found nothing. -/
lemma revertStep_notFound (offerTags : List String) (w : World)
    (item : OfferItem) (p : ℚ) (hp : item.originalPrice = some p)
    (h : findVariantNode w.shop item.sku = none) :
    revertStep offerTags w item = (w, [RevertEv.notFound item.id item.sku]) := by
  unfold revertStep
  rw [hp, h]

/-- Unfolding of one revert iteration whose SKU lookup found a variant. -/
lemma revertStep_some (offerTags : List String) (w : World)
    (item : OfferItem) (p : ℚ) (v : VariantNode)
    (hp : item.originalPrice = some p)
    (h : findVariantNode w.shop item.sku = some v) :
    revertStep offerTags w item
      = (⟨w.db,
          if offerTags.isEmpty then setVariantPrice w.shop v.vid p
          else setProductTags (setVariantPrice w.shop v.vid p) v.productId
            (removeTags v.productTags offerTags)⟩,
         [RevertEv.reverted item.id v.vid p]) := by
  unfold revertStep
  rw [hp, h]

/-- Unfolding of the revert loop on a cons cell. -/
lemma revertLoop_cons (offerTags : List String) (item : OfferItem)
    (rest : List OfferItem) (w : World) :
    revertLoop offerTags (item :: rest) w
      = ((revertLoop offerTags rest (revertStep offerTags w item).1).1,
         (revertStep offerTags w item).2
           ++ (revertLoop offerTags rest (revertStep offerTags w item).1).2) := rfl

/-- One revert iteration never writes the local store, and does not change
which SKUs exist in the catalog. -/
lemma revertStep_db_skuList (offerTags : List String) (w : World)
    (item : OfferItem) :
    (revertStep offerTags w item).1.db = w.db
    ∧ skuList (revertStep offerTags w item).1.shop = skuList w.shop := by
  cases hp : item.originalPrice with
  | none => rw [revertStep_none_orig offerTags w item hp]; exact ⟨rfl, rfl⟩
  | some p =>
    cases h : findVariantNode w.shop item.sku with
    | none => rw [revertStep_notFound offerTags w item p hp h]; exact ⟨rfl, rfl⟩
    | some v =>
      rw [revertStep_some offerTags w item p v hp h]
      refine ⟨rfl, ?_⟩
      by_cases ht : offerTags.isEmpty <;>
        simp [ht, skuList_setProductTags, skuList_setVariantPrice]

/-- The central bookkeeping facts of the revert loop: (1) the local store is
never written by the loop; (2) the loop does not change which SKUs exist;
(3) every item with a recorded `originalPrice` whose SKU exists in the
catalog produces a `reverted` event whose restored price is exactly that
recorded `originalPrice`; (4) every event belongs to an item with a
non-null `originalPrice` — items with a null one issue no remote call. -/
lemma revertLoop_spec (offerTags : List String) :
    ∀ (items : List OfferItem) (w : World),
    ((revertLoop offerTags items w).1.db = w.db)
    ∧ (skuList (revertLoop offerTags items w).1.shop = skuList w.shop)
    ∧ (∀ it ∈ items, ∀ p, it.originalPrice = some p → it.sku ∈ skuList w.shop →
        ∃ vid, RevertEv.reverted it.id vid p ∈ (revertLoop offerTags items w).2)
    ∧ (∀ e ∈ (revertLoop offerTags items w).2,
        ∃ it ∈ items, it.originalPrice ≠ none ∧ RevertEv.itemId e = it.id) := by
  intro items
  induction items with
  | nil =>
    intro w
    refine ⟨rfl, rfl, ?_, ?_⟩
    · intro it hit; cases hit
    · intro e he; exact absurd he (by simp [revertLoop])
  | cons item rest ih =>
    intro w
    rw [revertLoop_cons]
    have hstep := revertStep_db_skuList offerTags w item
    have ihw := ih (revertStep offerTags w item).1
    refine ⟨ihw.1.trans hstep.1, ihw.2.1.trans hstep.2, ?_, ?_⟩
    · intro it hit p hp hsku
      rcases List.mem_cons.mp hit with heq | hit
      · subst heq
        cases h : findVariantNode w.shop it.sku with
        | none =>
          have hs := (findVariantNode_isSome_iff w.shop it.sku).mpr hsku
          rw [h] at hs
          cases hs
        | some v =>
          refine ⟨v.vid, ?_⟩
          rw [revertStep_some offerTags w it p v hp h]
          simp
      · have hsku1 : it.sku ∈ skuList (revertStep offerTags w item).1.shop := by
          rw [hstep.2]; exact hsku
        obtain ⟨vid, hv⟩ := ihw.2.2.1 it hit p hp hsku1
        exact ⟨vid, List.mem_append_right _ hv⟩
    · intro e he
      rcases List.mem_append.mp he with he | he
      · cases hp : item.originalPrice with
        | none =>
          rw [revertStep_none_orig offerTags w item hp] at he
          cases he
        | some p =>
          refine ⟨item, List.mem_cons_self _ _, by rw [hp]; simp, ?_⟩
          cases h : findVariantNode w.shop item.sku with
          | none =>
            rw [revertStep_notFound offerTags w item p hp h] at he
            rcases List.mem_singleton.mp he with heq
            rw [heq]
            rfl
          | some v =>
            rw [revertStep_some offerTags w item p v hp h] at he
            rcases List.mem_singleton.mp he with heq
            rw [heq]
            rfl
      · obtain ⟨it, hit, hor, hid⟩ := ihw.2.2.2 e he
        exact ⟨it, List.mem_cons_of_mem _ hit, hor, hid⟩

/-- Unfolding of `revertOfferPrices` on an ACTIVE offer. -/
lemma revertOfferPrices_active (w : World) (oid : ℕ) (offer : Offer)
    (hf : findOffer w.db oid = some offer)
    (hst : offer.status = OfferStatus.ACTIVE) :
    revertOfferPrices w oid
      = (⟨setOfferStatus
            (revertLoop (parseTags offer.tags) offer.items w).1.db
            oid OfferStatus.COMPLETED,
          (revertLoop (parseTags offer.tags) offer.items w).1.shop⟩,
         (revertLoop (parseTags offer.tags) offer.items w).2) := by
  unfold revertOfferPrices
  rw [hf]
  simp [hst]

/-- C2.  `revert` on an ACTIVE, OFFER-type offer: the final status is
COMPLETED; every item with a recorded `originalPrice` whose SKU exists in
the catalog had a price mutation issued restoring exactly that recorded
price; and an item with a null `originalPrice` is skipped — no lookup and
no mutation carries its id. -/
theorem revert_restores_original_prices
    (w : World) (oid : ℕ) (offer : Offer)
    (hf : findOffer w.db oid = some offer)
    (hst : offer.status = OfferStatus.ACTIVE)
    (hpt : offer.priceType = "OFFER")
    (hnd : (offer.items.map OfferItem.id).Nodup) :
    statusOf (revertOfferPrices w oid).1.db oid = some OfferStatus.COMPLETED
    ∧ (∀ it ∈ offer.items, ∀ p, it.originalPrice = some p →
        it.sku ∈ skuList w.shop →
        ∃ vid, RevertEv.reverted it.id vid p ∈ (revertOfferPrices w oid).2)
    ∧ (∀ it ∈ offer.items, it.originalPrice = none →
        ∀ e ∈ (revertOfferPrices w oid).2, RevertEv.itemId e ≠ it.id) := by
  have hspec := revertLoop_spec (parseTags offer.tags) offer.items w
  rw [revertOfferPrices_active w oid offer hf hst]
  refine ⟨?_, ?_, ?_⟩
  · rw [show (⟨setOfferStatus
        (revertLoop (parseTags offer.tags) offer.items w).1.db
        oid OfferStatus.COMPLETED,
        (revertLoop (parseTags offer.tags) offer.items w).1.shop⟩ : World).db
      = setOfferStatus (revertLoop (parseTags offer.tags) offer.items w).1.db
          oid OfferStatus.COMPLETED from rfl]
    rw [hspec.1]
    exact statusOf_setOfferStatus_self w.db oid OfferStatus.COMPLETED
      (by rw [hf]; rfl)
  · intro it hit p hp hsku
    exact hspec.2.2.1 it hit p hp hsku
  · intro it hit hnone e he hid
    obtain ⟨it', hit', hor', hid'⟩ := hspec.2.2.2 e he
    have : it' = it :=
      List.inj_on_of_nodup_map hnd hit' hit (hid' ▸ hid)
    rw [this] at hor'
    exact hor' hnone

/-! ## The pricing formula -/

/-- C5.  The edit action's per-item price: for the BASE format it is
`basePrice * markup * (1 - discount / 100)` — in particular `basePrice *
markup` at zero discount and `basePrice * (1 - discount / 100)` at markup
one — and for the ACTUAL format it is the parsed CSV price verbatim. -/
theorem offer_price_formula (b m d p : ℚ) :
    computeOfferPrice "BASE" b m d = b * m * (1 - d / 100)
    ∧ computeOfferPrice "BASE" b m 0 = b * m
    ∧ computeOfferPrice "BASE" b 1 d = b * (1 - d / 100)
    ∧ computeOfferPrice "ACTUAL" p m d = p := by
  unfold computeOfferPrice
  refine ⟨?_, ?_, ?_, ?_⟩
  · rw [if_pos rfl]
  · rw [if_pos rfl]; norm_num
  · rw [if_pos rfl]; ring
  · rw [if_neg (by decide)]

/-! ## Idempotence of the tag merge -/

/-- Unfolding of `dedupAux` on an already-seen head. -/
lemma dedupAux_cons_of_mem (seen : List String) (a : String) (as : List String)
    (ha : a ∈ seen) : dedupAux seen (a :: as) = dedupAux seen as := by
  simp only [dedupAux]
  rw [if_pos ha]

/-- Unfolding of `dedupAux` on a fresh head. -/
lemma dedupAux_cons_of_not_mem (seen : List String) (a : String)
    (as : List String) (ha : a ∉ seen) :
    dedupAux seen (a :: as) = a :: dedupAux (a :: seen) as := by
  simp only [dedupAux]
  rw [if_neg ha]

/-- Membership in the deduplicated list. -/
lemma mem_dedupAux :
    ∀ (l seen : List String) (x : String),
    x ∈ dedupAux seen l ↔ (x ∈ l ∧ x ∉ seen) := by
  intro l
  induction l with
  | nil => intro seen x; simp [dedupAux]
  | cons a as ih =>
    intro seen x
    by_cases ha : a ∈ seen
    · rw [dedupAux_cons_of_mem seen a as ha]
      rw [ih seen x]
      constructor
      · rintro ⟨h1, h2⟩
        exact ⟨List.mem_cons_of_mem _ h1, h2⟩
      · rintro ⟨h1, h2⟩
        rcases List.mem_cons.mp h1 with heq | h1
        · exact absurd (heq ▸ ha) h2
        · exact ⟨h1, h2⟩
    · rw [dedupAux_cons_of_not_mem seen a as ha]
      rw [List.mem_cons, ih (a :: seen) x]
      constructor
      · rintro (heq | ⟨h1, h2⟩)
        · exact ⟨heq ▸ List.mem_cons_self a as, heq ▸ ha⟩
        · exact ⟨List.mem_cons_of_mem _ h1,
            fun hx => h2 (List.mem_cons_of_mem _ hx)⟩
      · rintro ⟨h1, h2⟩
        by_cases hxa : x = a
        · exact Or.inl hxa
        · rcases List.mem_cons.mp h1 with heq | h1
          · exact absurd heq hxa
          · exact Or.inr ⟨h1, by
              intro hx
              rcases List.mem_cons.mp hx with heq | hx
              · exact hxa heq
              · exact h2 hx⟩

/-- Deduplication of a list whose elements are all already seen is empty. -/
lemma dedupAux_vanish :
    ∀ (m seen : List String), (∀ x ∈ m, x ∈ seen) → dedupAux seen m = [] := by
  intro m
  induction m with
  | nil => intro seen _; rfl
  | cons a as ih =>
    intro seen hall
    rw [dedupAux_cons_of_mem seen a as (hall a (List.mem_cons_self a as))]
    exact ih seen (fun x hx => hall x (List.mem_cons_of_mem _ hx))

/-- Deduplication with an absorbed tail: when `D` is duplicate-free, avoids
`seen`, and every element of `T` is already in `D` or `seen`, deduplicating
`D ++ T` gives back exactly `D`. -/
lemma dedupAux_append_absorb :
    ∀ (D : List String) (T seen : List String), D.Nodup →
    (∀ x ∈ D, x ∉ seen) → (∀ x ∈ T, x ∈ D ∨ x ∈ seen) →
    dedupAux seen (D ++ T) = D := by
  intro D
  induction D with
  | nil =>
    intro T seen _ _ hT
    rw [List.nil_append]
    exact dedupAux_vanish T seen (fun x hx => (hT x hx).resolve_left (by simp))
  | cons a D ih =>
    intro T seen hnd hout hT
    rw [List.cons_append,
      dedupAux_cons_of_not_mem seen a (D ++ T) (hout a (List.mem_cons_self a D))]
    rw [List.nodup_cons] at hnd
    congr 1
    refine ih T (a :: seen) hnd.2 ?_ ?_
    · intro x hx hmem
      rcases List.mem_cons.mp hmem with heq | hmem
      · exact hnd.1 (heq ▸ hx)
      · exact hout x (List.mem_cons_of_mem _ hx) hmem
    · intro x hx
      rcases hT x hx with hxD | hxs
      · rcases List.mem_cons.mp hxD with heq | hxD
        · exact Or.inr (heq ▸ List.mem_cons_self a seen)
        · exact Or.inl hxD
      · exact Or.inr (List.mem_cons_of_mem _ hxs)

/-- The deduplicated list is duplicate-free. -/
lemma dedupAux_nodup :
    ∀ (l seen : List String), (dedupAux seen l).Nodup := by
  intro l
  induction l with
  | nil => intro seen; exact List.nodup_nil
  | cons a as ih =>
    intro seen
    by_cases ha : a ∈ seen
    · rw [dedupAux_cons_of_mem seen a as ha]
      exact ih seen
    · rw [dedupAux_cons_of_not_mem seen a as ha]
      rw [List.nodup_cons]
      refine ⟨fun hmem => ?_, ih (a :: seen)⟩
      exact ((mem_dedupAux as (a :: seen) a).mp hmem).2 (List.mem_cons_self a seen)

/-- The tag merge is idempotent: merging the offer tags into a product tag
list that already merged them once changes nothing. -/
lemma mergeTags_idem (cur add : List String) :
    mergeTags (mergeTags cur add) add = mergeTags cur add := by
  unfold mergeTags
  refine dedupAux_append_absorb (dedupAux [] (cur ++ add)) add []
    (dedupAux_nodup (cur ++ add) []) (fun x _ hx => (List.not_mem_nil x) hx) ?_
  intro x hx
  exact Or.inl ((mem_dedupAux (cur ++ add) [] x).mpr
    ⟨List.mem_append_right cur hx, List.not_mem_nil x⟩)

/-- C9 (amended).  Re-running `activate` on an offer that is still PENDING —
the state a crash in the middle of the activation loop leaves behind —
attempts every item again: each item produces an event, and each item whose
SKU exists in the catalog gets a price mutation writing the same
`offerPrice` as any earlier attempt wrote (the price-set is idempotent).
The tag merge is likewise idempotent — a second union adds nothing.  (What
is not idempotent is the `originalPrice` recording, which the re-run
overwrites with the now-current remote price; see the counterexample.) -/
theorem rerun_activate_idempotence
    (w : World) (oid : ℕ) (offer : Offer)
    (hf : findOffer w.db oid = some offer)
    (hst : offer.status = OfferStatus.PENDING)
    (hnd : ((allItems w.db).map OfferItem.id).Nodup) :
    (∀ it ∈ offer.items, ∃ e ∈ (applyOfferPrices w oid).2,
        ApplyEv.itemId e = it.id)
    ∧ (∀ it ∈ offer.items, it.sku ∈ skuList w.shop →
        ∃ vid rp, ApplyEv.applied it.id vid rp it.offerPrice
          ∈ (applyOfferPrices w oid).2)
    ∧ (∀ cur add : List String, mergeTags (mergeTags cur add) add
        = mergeTags cur add) := by
  have homem : offer ∈ w.db := findOffer_mem w.db oid offer hf
  have hspec := applyLoop_spec offer.priceType (parseTags offer.tags) offer.items w
    (offer_items_nodup w.db offer homem hnd)
    (fun it hit => findItem_of_offer_item w.db offer homem it hit)
  rw [applyOfferPrices_pending w oid offer hf hst]
  exact ⟨hspec.2.2, hspec.2.1, fun cur add => mergeTags_idem cur add⟩

/-! ## The CSV parser -/

/-- C6.  On CSV text whose parsed records expose a `sku` column and the
price column required by the pricing format (the header is compared
lowercased and trimmed), `parseCSV` succeeds with exactly one record per
data row, in row order, each record holding that row's `sku` cell and its
format price cell. -/
theorem parseCSV_valid_rows (content fmt : String) (h : List String)
    (rows : List (List String))
    (hp : parseRecords content = Except.ok (h, rows))
    (hsku : "sku" ∈ h)
    (hprice : expectedPriceHeader fmt ∈ h) :
    parseCSV content fmt
      = Except.ok (rows.map fun r =>
          ⟨recordGet h r "sku", recordGet h r (expectedPriceHeader fmt)⟩)
    ∧ ∀ res, parseCSV content fmt = Except.ok res → res.length = rows.length := by
  have hmain : parseCSV content fmt
      = Except.ok (rows.map fun r =>
          ⟨recordGet h r "sku", recordGet h r (expectedPriceHeader fmt)⟩) := by
    unfold parseCSV
    rw [hp]
    dsimp only
    by_cases hlen : rows.length > 0
    · rw [if_pos hlen, if_pos hsku, if_pos hprice]
    · have : rows = [] := by
        cases rows with
        | nil => rfl
        | cons r t => exact absurd (by simp) hlen
      subst this
      simp
  refine ⟨hmain, ?_⟩
  intro res hres
  rw [hmain] at hres
  have : res = rows.map fun r =>
      (⟨recordGet h r "sku", recordGet h r (expectedPriceHeader fmt)⟩ : CSVRow) := by
    cases hres
    rfl
  rw [this, List.length_map]

/-- C7 (amended).  On CSV text with at least one data record, `parseCSV`
rejects the upload whenever the format's price column is missing from the
normalized header — even when a column of another price-like name is
present — and likewise whenever the `sku` column is missing. -/
theorem parseCSV_missing_column_fails (content fmt : String) (h : List String)
    (rows : List (List String))
    (hp : parseRecords content = Except.ok (h, rows))
    (hne : rows ≠ []) :
    (expectedPriceHeader fmt ∉ h →
      ∃ msg, parseCSV content fmt = Except.error msg)
    ∧ ("sku" ∉ h → ∃ msg, parseCSV content fmt = Except.error msg) := by
  have hlen : rows.length > 0 := List.length_pos.mpr hne
  constructor
  · intro hnp
    unfold parseCSV
    rw [hp]
    by_cases hsku : "sku" ∈ h
    · refine ⟨"CSV must contain the format price column.", ?_⟩
      simp only [hlen, if_true, if_pos hsku, if_neg hnp]
    · refine ⟨"CSV must contain sku column.", ?_⟩
      simp only [hlen, if_true, if_neg hsku]
  · intro hns
    refine ⟨"CSV must contain sku column.", ?_⟩
    unfold parseCSV
    rw [hp]
    simp only [hlen, if_true, if_neg hns]

/-- C7 (counterexample to the claim as stated).  A header-only CSV whose
header lacks the BASE-format price column — while holding a column named
`price` — parses successfully to the empty list instead of failing:
column validation only runs when at least one data record exists. -/
theorem parseCSV_absent_column_header_only_ok :
    parseRecords "sku,price" = Except.ok (["sku", "price"], [])
    ∧ expectedPriceHeader "BASE" ∉ ["sku", "price"]
    ∧ parseCSV "sku,price" "BASE" = Except.ok [] := by
  refine ⟨rfl, by decide, rfl⟩

/-- C10.  CSV text that parses to zero data records — a header-only or empty
upload — makes `parseCSV` return the empty list with no error, whatever
columns the header holds. -/
theorem parseCSV_zero_rows_ok (content fmt : String) (h : List String)
    (hp : parseRecords content = Except.ok (h, [])) :
    parseCSV content fmt = Except.ok [] := by
  unfold parseCSV
  rw [hp]
  simp

/-! ## The edit route -/

/-- C8 (amended).  Loading the edit form of an existing offer whose status
is not PENDING is rejected by the loader as a precondition failure (the
thrown 400 `Offer cannot be edited`); the edit action itself checks no
status (see the counterexample). -/
theorem edit_loader_rejects_non_pending (db : List Offer) (oid : ℕ)
    (offer : Offer)
    (hf : findOffer db oid = some offer)
    (hst : offer.status ≠ OfferStatus.PENDING) :
    editLoader db oid = LoaderResult.cannotEdit := by
  unfold editLoader
  rw [hf]
  simp [hst]

/-- C8 (counterexample to the claim as stated).  A well-formed edit
submission posted directly against an ACTIVE offer is not rejected: the
action runs its field validation only, performs no status check, and
rewrites the offer's fields (here the title). -/
theorem edit_action_modifies_active_offer :
    oldOffer.status = OfferStatus.ACTIVE
    ∧ editAction editDb 1 editForm = Except.ok [editedOffer]
    ∧ editedOffer.title ≠ oldOffer.title := by
  refine ⟨rfl, rfl, by decide⟩

/-- C9 (counterexample to the claim as stated).  In the crash state the
product already carries the merged tags and the item's true original price
5; re-running `activate` leaves the product tags exactly unchanged (the
second tag union adds nothing, so the tag merge IS idempotent), while it
overwrites the recorded `originalPrice` with the already-applied offer
price 7 — the non-idempotent effect is the `originalPrice` recording, not
the tag merge. -/
theorem rerun_overwrites_original_price_not_tags :
    statusOf crashWorld.db 1 = some OfferStatus.PENDING
    ∧ productTagsOf crashWorld.shop 20 = ["x", "sale"]
    ∧ origOf crashWorld.db 11 = some (some 5)
    ∧ productTagsOf (applyOfferPrices crashWorld 1).1.shop 20
        = productTagsOf crashWorld.shop 20
    ∧ origOf (applyOfferPrices crashWorld 1).1.db 11 = some (some 7) := by
  refine ⟨by decide, by decide, by decide, by decide, by decide⟩

/-! ## Witnesses -/

/-- C1 witness: the hypotheses of
`activate_offer_records_original_price` hold at `sampleWorld`. -/
theorem activate_offer_records_original_price_witness :
    statusOf (applyOfferPrices sampleWorld 1).1.db 1 = some OfferStatus.ACTIVE
    ∧ (∀ it ∈ sampleOffer.items, it.sku ∈ skuList sampleWorld.shop →
        ∃ vid rp,
          ApplyEv.applied it.id vid rp it.offerPrice
            ∈ (applyOfferPrices sampleWorld 1).2
          ∧ origOf (applyOfferPrices sampleWorld 1).1.db it.id
              = some (some rp)) :=
  activate_offer_records_original_price sampleWorld 1 sampleOffer
    (by decide) (by decide) (by decide) (by decide)

/-- C2 witness: the hypotheses of `revert_restores_original_prices` hold at
`activeWorld`. -/
theorem revert_restores_original_prices_witness :
    statusOf (revertOfferPrices activeWorld 1).1.db 1
      = some OfferStatus.COMPLETED
    ∧ (∀ it ∈ activeOffer.items, ∀ p, it.originalPrice = some p →
        it.sku ∈ skuList activeWorld.shop →
        ∃ vid, RevertEv.reverted it.id vid p ∈ (revertOfferPrices activeWorld 1).2)
    ∧ (∀ it ∈ activeOffer.items, it.originalPrice = none →
        ∀ e ∈ (revertOfferPrices activeWorld 1).2,
          RevertEv.itemId e ≠ it.id) :=
  revert_restores_original_prices activeWorld 1 activeOffer
    (by decide) (by decide) (by decide) (by decide)

/-- C3 witness: on a COMPLETED offer both operations return the world
unchanged with an empty remote trace. -/
theorem activate_revert_precondition_noop_witness :
    applyOfferPrices doneWorld 1 = (doneWorld, [])
    ∧ revertOfferPrices doneWorld 1 = (doneWorld, []) :=
  ⟨(activate_revert_precondition_noop doneWorld 1).1 (by decide),
   (activate_revert_precondition_noop doneWorld 1).2 (by decide)⟩

/-- C4 witness: the hypotheses of `activate_regular_records_offer_price`
hold at `regularWorld`, and its matched item gets its own `offerPrice`
recorded. -/
theorem activate_regular_records_offer_price_witness :
    origOf (applyOfferPrices regularWorld 1).1.db sampleItem.id
      = some (some sampleItem.offerPrice) :=
  activate_regular_records_offer_price regularWorld 1 regularOffer
    (by decide) (by decide) (by decide) (by decide)
    sampleItem (by decide) (by decide)

/-- C6 witness: a two-row ACTUAL-format CSV parses to its two records. -/
theorem parseCSV_valid_rows_witness :
    parseCSV "sku,Actual Price\nSK1,100.00\nSK2,20" "ACTUAL"
      = Except.ok ([["SK1", "100.00"], ["SK2", "20"]].map fun r =>
          ⟨recordGet ["sku", "actual price"] r "sku",
           recordGet ["sku", "actual price"] r (expectedPriceHeader "ACTUAL")⟩)
    ∧ ∀ res, parseCSV "sku,Actual Price\nSK1,100.00\nSK2,20" "ACTUAL"
        = Except.ok res → res.length = [["SK1", "100.00"], ["SK2", "20"]].length :=
  parseCSV_valid_rows "sku,Actual Price\nSK1,100.00\nSK2,20" "ACTUAL"
    ["sku", "actual price"] [["SK1", "100.00"], ["SK2", "20"]]
    rfl (by decide) (by decide)

/-- C7 witness: a CSV with one data row and a `price` column — but not the
BASE-format `Base Price` column — is rejected. -/
theorem parseCSV_missing_column_fails_witness :
    ∃ msg, parseCSV "sku,price\nA,1" "BASE" = Except.error msg :=
  (parseCSV_missing_column_fails "sku,price\nA,1" "BASE" ["sku", "price"]
    [["A", "1"]] rfl (by decide)).1 (by decide)

/-- C8 witness: the loader rejects the ACTIVE offer of `editDb`. -/
theorem edit_loader_rejects_non_pending_witness :
    editLoader editDb 1 = LoaderResult.cannotEdit :=
  edit_loader_rejects_non_pending editDb 1 oldOffer (by decide) (by decide)

/-- C9 witness: the amended re-run statement holds at the crash state. -/
theorem rerun_activate_idempotence_witness :
    (∀ it ∈ crashOffer.items, ∃ e ∈ (applyOfferPrices crashWorld 1).2,
        ApplyEv.itemId e = it.id)
    ∧ (∀ it ∈ crashOffer.items, it.sku ∈ skuList crashWorld.shop →
        ∃ vid rp, ApplyEv.applied it.id vid rp it.offerPrice
          ∈ (applyOfferPrices crashWorld 1).2)
    ∧ (∀ cur add : List String, mergeTags (mergeTags cur add) add
        = mergeTags cur add) :=
  rerun_activate_idempotence crashWorld 1 crashOffer
    (by decide) (by decide) (by decide)

/-- C10 witness: a header-only CSV (without the required columns) and the
empty upload both parse to the empty list. -/
theorem parseCSV_zero_rows_ok_witness :
    parseCSV "foo,bar" "BASE" = Except.ok []
    ∧ parseCSV "" "ACTUAL" = Except.ok [] :=
  ⟨parseCSV_zero_rows_ok "foo,bar" "BASE" ["foo", "bar"] rfl,
   parseCSV_zero_rows_ok "" "ACTUAL" [] rfl⟩

end MakeOffer
